import Mathlib

/-!
Verification of the `commandrs` declarative command-line argument parser.

The development shallowly embeds the flag-registration builder
(`src/program.rs`: `add_flag`, `with_required_flag`, `with_optional_flag`,
`get`), the tokenizer and value resolver (`src/parser.rs`:
`parse_from_strings`) and the error type (`src/error.rs`).  Rust `TypeId`
tags are modelled by the closed inductive `TypeTag`; the `HashMap` the
tokenizer collects into is modelled by an association list with
replace-on-insert semantics (the only operations used on it are `get` and
`contains_key`).  A parse returns `ParseOutcome`: `ok` with the updated
program, `err` carrying the error together with the (unmodified) program
state at the early return, or `panic` for the `unwrap` of a missing
default value.
-/

namespace Commandrs

/-- Rust `TypeId` values that occur in the crate, as a closed tag type.
The parser only ever compares a tag against `bool`. -/
inductive TypeTag where
  | bool
  | str
  | string
  | u8
  | u16
  | u64
  | usize
deriving DecidableEq

/-- `Flag` from src/src/flag.rs: name, description, requiredness and the
registered type tag. -/
structure Flag where
  name : String
  desc : String
  is_required : Bool
  type_id : TypeTag
deriving DecidableEq

/-- `FlagValue` from src/src/flag.rs: a name paired with a string value. -/
structure FlagValue where
  name : String
  str_value : String
deriving DecidableEq

/-- `ProgramError` from src/src/error.rs. -/
inductive ProgramError where
  | FlagAlreadyExistsWithName (name : String)
  | NoSuchFlagExistsWithName (name : String)
  | FailedToParseFlagValue (name : String) (type_name : String)
  | RequiredArgWasNotGiven (name : String)
  | HelpFlagGiven
deriving DecidableEq

/-- `Program` from src/src/program.rs. -/
structure Program where
  description : String
  flags : List Flag
  flag_defaults : List FlagValue
  flag_values : List FlagValue
deriving DecidableEq

/-- `Program::new` / `Program::default`. -/
def Program.new : Program := ⟨"", [], [], []⟩

/-- `Program::with_description`. -/
def Program.with_description (p : Program) (desc : String) : Program :=
  { p with description := desc }

/-- `Program::add_flag` (src/src/program.rs): rejects a duplicate name by a
linear scan, otherwise appends the new flag definition. -/
def Program.add_flag (p : Program) (name desc : String) (type_id : TypeTag)
    (is_required : Bool) : Except ProgramError Program :=
  if p.flags.any (fun f => f.name = name) then
    Except.error (ProgramError.FlagAlreadyExistsWithName name)
  else
    Except.ok { p with flags := p.flags ++ [⟨name, desc, is_required, type_id⟩] }

/-- `Program::with_required_flag`: `add_flag` with `is_required = true`. -/
def Program.with_required_flag (p : Program) (type_id : TypeTag)
    (name desc : String) : Except ProgramError Program :=
  p.add_flag name desc type_id true

/-- `Program::with_optional_flag` (src/src/program.rs): `add_flag` with
`is_required = false`, then push the default converted to a string via the
type's canonical conversion (`Display`, here the explicit `toStr`) at
registration time.  On a duplicate name the error propagates before the
default is pushed. -/
def Program.with_optional_flag (p : Program) {α : Type} (toStr : α → String)
    (type_id : TypeTag) (name : String) (defaultVal : α) (desc : String) :
    Except ProgramError Program :=
  match p.add_flag name desc type_id false with
  | Except.error e => Except.error e
  | Except.ok q =>
      Except.ok { q with flag_defaults := q.flag_defaults ++ [⟨name, toStr defaultVal⟩] }

/-- `is_in_arg_format` (src/src/parser.rs): the token starts with the
argument marker `--`.  Stated over the character list so that it evaluates
in the kernel; `s.startsWith "--"` holds exactly when the first two
characters are dashes. -/
def is_in_arg_format (s : String) : Bool :=
  match s.data with
  | '-' :: '-' :: _ => true
  | _ => false

/-- `a.strip_prefix(ARG_PREFIX).unwrap_or(a)`: dropping the two marker
characters when they are present. -/
def strip_arg_marker (a : String) : String :=
  if is_in_arg_format a then a.drop 2 else a

/-- The tokenizer pass of `Program::parse_from_strings`
(src/src/parser.rs): enumerate the raw tokens, keep the flag markers, and
pair each bare flag name with its candidate value — the immediately
following token, kept only when it is present and (the matched flag's
registered kind is non-boolean) or (it does not itself look like a flag
marker); an unmatched name never requires a value (`unwrap_or(false)`). -/
def tokenPairs (flags : List Flag) (args : List String) :
    List (String × Option String) :=
  (args.enum.filter (fun ia => is_in_arg_format ia.2)).map (fun ia =>
    let arg_name := strip_arg_marker ia.2
    let requires_value :=
      ((flags.find? (fun f => f.name = arg_name)).map
        (fun f => decide (f.type_id ≠ TypeTag.bool))).getD false
    let arg_value := (args[ia.1 + 1]?).filter
      (fun s => requires_value || !is_in_arg_format s)
    (arg_name, arg_value))

/-- One `HashMap` insertion: replace the value when the key is already
present, otherwise append the binding. -/
def insertPair (m : List (String × Option String))
    (kv : String × Option String) : List (String × Option String) :=
  if m.any (fun pr => pr.1 = kv.1) then
    m.map (fun pr => if pr.1 = kv.1 then kv else pr)
  else m ++ [kv]

/-- `collect::<HashMap<_, _>>()`: fold the tokenizer's pairs into a map;
later bindings of the same key overwrite earlier ones. -/
def collectMap (ps : List (String × Option String)) :
    List (String × Option String) :=
  ps.foldl insertPair []

/-- `HashMap::get`. -/
def mapGet (m : List (String × Option String)) (key : String) :
    Option (Option String) :=
  (m.find? (fun pr => pr.1 = key)).map (fun pr => pr.2)

/-- `HashMap::contains_key`. -/
def mapContains (m : List (String × Option String)) (key : String) : Bool :=
  m.any (fun pr => pr.1 = key)

/-- Modelled from the spec: `unwrap_default_flag_value` is called from
src/src/parser.rs and src/src/help.rs but its definition is not under
src/.  Following spec section 4.3 step 5 ("store its DefaultValue's
string") and the identical inlined lookup in the older `parse_from_arr`
(src/src/program_parsing.rs), it finds the default value registered under
`name`; `none` models the panic of the Rust `unwrap` when no default
exists. -/
def Program.unwrap_default_flag_value (p : Program) (name : String) :
    Option String :=
  (p.flag_defaults.find? (fun fv => fv.name = name)).map (fun fv => fv.str_value)

/-- The per-flag arm of the resolver match in `parse_from_strings`
(src/src/parser.rs): an explicit value is stored as-is; a flag found
without a value stores `"true"` when boolean and fails otherwise; an
absent required flag fails; an absent optional flag falls back to its
default (`none` models the panicking `unwrap` of a missing default). -/
def resolveFlag (p : Program) (given : List (String × Option String))
    (f : Flag) : Option (Except ProgramError FlagValue) :=
  match mapGet given f.name with
  | some (some given_arg) => some (Except.ok ⟨f.name, given_arg⟩)
  | some none =>
      if f.type_id = TypeTag.bool then some (Except.ok ⟨f.name, "true"⟩)
      else some (Except.error (ProgramError.RequiredArgWasNotGiven f.name))
  | none =>
      if f.is_required then
        some (Except.error (ProgramError.RequiredArgWasNotGiven f.name))
      else (p.unwrap_default_flag_value f.name).map
        (fun v => Except.ok ⟨f.name, v⟩)

/-- The `flag_value_mutations` collection of `parse_from_strings`: the
resolver arm is run for every registered flag in registration order; a
panic (missing default) aborts the whole collection. -/
def collectMutations (p : Program) (given : List (String × Option String)) :
    List Flag → Option (List (Except ProgramError FlagValue))
  | [] => some []
  | f :: fs =>
    match resolveFlag p given f with
    | none => none
    | some r => (collectMutations p given fs).map (fun ms => r :: ms)

/-- `flag_value_mutations.iter().find(|r| r.is_err())`: the first error
among the per-flag results, in registration order. -/
def firstError (ms : List (Except ProgramError FlagValue)) :
    Option ProgramError :=
  ms.findSome? (fun r => match r with
    | Except.error e => some e
    | Except.ok _ => none)

/-- Outcome of a parse: success with the updated program, an error
carrying the program state at the early return (the Rust function returns
`Err` before ever assigning `self.flag_values`, so that state is the
caller's program unchanged), or the panic of a missing default value. -/
inductive ParseOutcome where
  | ok (program : Program)
  | err (program : Program) (e : ProgramError)
  | panic
deriving DecidableEq

/-- `HELP_FLAG` in src/src/parser.rs is the reserved name `"help"`. -/
def HELP_FLAG : String := "help"

/-- `Program::parse_from_strings` (src/src/parser.rs): tokenize into the
map, resolve every registered flag, return the first error if any, then
short-circuit with `HelpFlagGiven` when the help flag was tokenized, and
otherwise commit the resolved values. -/
def Program.parse_from_strings (p : Program) (args : List String) :
    ParseOutcome :=
  let given := collectMap (tokenPairs p.flags args)
  match collectMutations p given p.flags with
  | none => ParseOutcome.panic
  | some ms =>
    match firstError ms with
    | some e => ParseOutcome.err p e
    | none =>
      if mapContains given HELP_FLAG then
        ParseOutcome.err p ProgramError.HelpFlagGiven
      else ParseOutcome.ok { p with flag_values := ms.filterMap Except.toOption }

/-- `Program::get` (src/src/program.rs), generic over the requested type's
canonical parser (`FromStr`) and Rust type name: look up the resolved
value by name, then convert the stored string. -/
def Program.get {α : Type} (parseFn : String → Option α) (type_name : String)
    (p : Program) (name : String) : Except ProgramError α :=
  match p.flag_values.find? (fun fv => fv.name = name) with
  | some flag_value =>
    match parseFn flag_value.str_value with
    | some v => Except.ok v
    | none => Except.error (ProgramError.FailedToParseFlagValue name type_name)
  | none => Except.error (ProgramError.NoSuchFlagExistsWithName name)

/-- Rust `bool::from_str`: accepts exactly `"true"` and `"false"`. -/
def parseRustBool (s : String) : Option Bool :=
  if s = "true" then some true
  else if s = "false" then some false
  else none

/-- Rust `Display` for `bool`. -/
def rustBoolToString (b : Bool) : String := if b then "true" else "false"

/-- Value of a list of decimal digit characters. -/
def digitsValue (cs : List Char) : Nat :=
  cs.foldl (fun n c => n * 10 + (c.toNat - '0'.toNat)) 0

/-- Rust `FromStr` for an unsigned integer of bit width `width`: an
optional leading `+`, then one or more decimal digits, rejecting values
outside the type's range. -/
def parseRustUint (width : Nat) (s : String) : Option Nat :=
  let cs := match s.data with
    | '+' :: rest => rest
    | cs => cs
  if cs ≠ [] ∧ cs.all (fun c => c.isDigit) then
    if digitsValue cs < 2 ^ width then some (digitsValue cs) else none
  else none

/-- Rust `String::from_str`, which is infallible. -/
def parseRustString (s : String) : Option String := some s

deriving instance DecidableEq for Except

/-! ### Well-formedness predicates and the reachable builder states -/

/-- Every optional flag has a default value to fall back to, so the
resolver's unchecked default lookup cannot panic. -/
def HasAllDefaults (p : Program) : Prop :=
  ∀ f ∈ p.flags, f.is_required = false →
    (p.unwrap_default_flag_value f.name).isSome

/-- Spec invariant: flag names in the definition sequence are pairwise
distinct. -/
def DistinctFlagNames (p : Program) : Prop :=
  (p.flags.map Flag.name).Nodup

/-- Spec invariant: every flag registered as optional has exactly one
default value entry with the same name. -/
def OneDefaultPerOptional (p : Program) : Prop :=
  ∀ f ∈ p.flags, f.is_required = false →
    (p.flag_defaults.filter (fun fv => fv.name = f.name)).length = 1

/-- Strengthened invariant carried by the builder: the default entries are
exactly the optional flags, in registration order. -/
def DefaultNamesMatch (p : Program) : Prop :=
  p.flag_defaults.map FlagValue.name =
    (p.flags.filter (fun f => f.is_required = false)).map Flag.name

/-- The first per-flag resolution failure, in registration order. -/
def firstFlagError (p : Program) (args : List String) : Option ProgramError :=
  p.flags.findSome? (fun f =>
    match resolveFlag p (collectMap (tokenPairs p.flags args)) f with
    | some (Except.error e) => some e
    | _ => none)

/-- Program states reachable through the public builder API. -/
inductive Reachable : Program → Prop where
  | base : Reachable Program.new
  | described {p : Program} (desc : String) :
      Reachable p → Reachable (p.with_description desc)
  | required_flag {p p' : Program} (type_id : TypeTag) (name desc : String) :
      Reachable p → p.with_required_flag type_id name desc = Except.ok p' →
      Reachable p'
  | optional_flag {p p' : Program} (α : Type) (toStr : α → String)
      (type_id : TypeTag) (name : String) (d : α) (desc : String) :
      Reachable p → p.with_optional_flag toStr type_id name d desc = Except.ok p' →
      Reachable p'
  | parsed {p p' : Program} (args : List String) :
      Reachable p → p.parse_from_strings args = ParseOutcome.ok p' →
      Reachable p'

/-! ### Lemmas about the association-list model of the tokenizer's map -/

lemma find?_map_replace_self (m : List (String × Option String))
    (kv : String × Option String) (h : ∃ pr ∈ m, pr.1 = kv.1) :
    (m.map (fun pr => if pr.1 = kv.1 then kv else pr)).find?
      (fun pr => pr.1 = kv.1) = some kv := by
  induction m with
  | nil => simp at h
  | cons hd tl ih =>
    by_cases hhd : hd.1 = kv.1
    · simp [List.find?_cons, hhd]
    · have hd2 : decide (hd.1 = kv.1) = false := by simp [hhd]
      simp only [List.map_cons, if_neg hhd, List.find?_cons, hd2]
      simp only [List.mem_cons] at h
      rcases h with ⟨pr, hpr | hpr, heq⟩
      · exact absurd (hpr ▸ heq) hhd
      · exact ih ⟨pr, hpr, heq⟩

lemma find?_map_replace_other (m : List (String × Option String))
    (kv : String × Option String) (key : String) (h : kv.1 ≠ key) :
    (m.map (fun pr => if pr.1 = kv.1 then kv else pr)).find?
      (fun pr => pr.1 = key) = m.find? (fun pr => pr.1 = key) := by
  induction m with
  | nil => simp
  | cons hd tl ih =>
    by_cases hhd : hd.1 = kv.1
    · have hne : hd.1 ≠ key := fun hk => h (hhd ▸ hk)
      simp [List.find?_cons, hhd, hne, Ne.symm, h, ih]
    · simp only [List.map_cons, if_neg hhd, List.find?_cons]
      by_cases hk : hd.1 = key
      · simp [hk]
      · simp [hk, ih]

lemma mapGet_insertPair (m : List (String × Option String))
    (kv : String × Option String) (key : String) :
    mapGet (insertPair m kv) key =
      if kv.1 = key then some kv.2 else mapGet m key := by
  unfold insertPair mapGet
  by_cases hmem : ∃ pr ∈ m, pr.1 = kv.1
  · have hany : m.any (fun pr => decide (pr.1 = kv.1)) = true := by
      simpa using hmem
    rw [if_pos (by simpa using hmem)]
    by_cases hk : kv.1 = key
    · subst hk
      rw [find?_map_replace_self m kv hmem]
      simp
    · rw [find?_map_replace_other m kv key hk, if_neg hk]
  · rw [if_neg (by simpa using hmem)]
    push_neg at hmem
    by_cases hk : kv.1 = key
    · subst hk
      have hnone : m.find? (fun pr => decide (pr.1 = kv.1)) = none := by
        rw [List.find?_eq_none]
        intro pr hpr
        simpa using hmem pr hpr
      simp [List.find?_append, hnone]
    · have : ([kv].find? (fun pr => decide (pr.1 = key))) = none := by
        simp [List.find?_cons, hk]
      simp [List.find?_append, this, if_neg hk]

lemma keys_insertPair (m : List (String × Option String))
    (kv : String × Option String) :
    (insertPair m kv).map Prod.fst =
      if m.any (fun pr => pr.1 = kv.1) then m.map Prod.fst
      else m.map Prod.fst ++ [kv.1] := by
  unfold insertPair
  by_cases hany : m.any (fun pr => decide (pr.1 = kv.1)) = true
  · rw [if_pos hany, if_pos hany, List.map_map]
    apply List.map_congr_left
    intro pr _
    by_cases hpr : pr.1 = kv.1
    · simp [hpr]
    · simp [hpr]
  · rw [if_neg hany, if_neg hany]
    simp

lemma keys_nodup_insertPair (m : List (String × Option String))
    (kv : String × Option String) (h : (m.map Prod.fst).Nodup) :
    ((insertPair m kv).map Prod.fst).Nodup := by
  rw [keys_insertPair]
  by_cases hany : m.any (fun pr => decide (pr.1 = kv.1)) = true
  · simpa [hany] using h
  · rw [if_neg hany]
    have hnotmem : kv.1 ∉ m.map Prod.fst := by
      intro hmem
      apply hany
      rcases List.mem_map.mp hmem with ⟨pr, hpr, hfst⟩
      simp only [List.any_eq_true, decide_eq_true_eq]
      exact ⟨pr, hpr, hfst⟩
    rw [List.nodup_append]
    refine ⟨h, List.nodup_singleton _, ?_⟩
    intro a ha hb
    simp only [List.mem_singleton] at hb
    subst hb
    exact hnotmem ha

lemma mapGet_foldl_insertPair (ps : List (String × Option String)) :
    ∀ (acc : List (String × Option String)) (key : String),
      mapGet (ps.foldl insertPair acc) key =
        match ps.reverse.find? (fun pr => pr.1 = key) with
        | some pr => some pr.2
        | none => mapGet acc key := by
  induction ps with
  | nil => intro acc key; simp
  | cons kv ps ih =>
    intro acc key
    rw [List.foldl_cons, ih (insertPair acc kv) key]
    rw [List.reverse_cons, List.find?_append]
    cases hfind : ps.reverse.find? (fun pr => decide (pr.1 = key)) with
    | some pr => simp [hfind]
    | none =>
      by_cases hk : kv.1 = key
      · simp [hfind, List.find?_cons, hk, mapGet_insertPair]
      · simp [hfind, List.find?_cons, hk, mapGet_insertPair]

lemma mapGet_collectMap (ps : List (String × Option String)) (key : String) :
    mapGet (collectMap ps) key =
      (ps.reverse.find? (fun pr => pr.1 = key)).map (fun pr => pr.2) := by
  unfold collectMap
  rw [mapGet_foldl_insertPair ps [] key]
  cases hfind : ps.reverse.find? (fun pr => decide (pr.1 = key)) with
  | some pr => simp
  | none => simp [mapGet]

lemma collectMap_keys_nodup (ps : List (String × Option String)) :
    ((collectMap ps).map Prod.fst).Nodup := by
  unfold collectMap
  have aux : ∀ (acc : List (String × Option String)), (acc.map Prod.fst).Nodup →
      ((ps.foldl insertPair acc).map Prod.fst).Nodup := by
    induction ps with
    | nil => intro acc h; simpa using h
    | cons kv ps ih =>
      intro acc h
      exact ih (insertPair acc kv) (keys_nodup_insertPair acc kv h)
  exact aux [] (by simp)

lemma mapGet_collectMap_eq_none (ps : List (String × Option String))
    (key : String) (h : ∀ pr ∈ ps, pr.1 ≠ key) :
    mapGet (collectMap ps) key = none := by
  rw [mapGet_collectMap]
  have : ps.reverse.find? (fun pr => decide (pr.1 = key)) = none := by
    rw [List.find?_eq_none]
    intro pr hpr
    simpa using h pr (List.mem_reverse.mp hpr)
  simp [this]

/-! ### Lemmas about the tokenizer -/

lemma tokenPairs_mem (flags : List Flag) (args : List String)
    (pr : String × Option String) (h : pr ∈ tokenPairs flags args) :
    ∃ a ∈ args, is_in_arg_format a = true ∧ pr.1 = strip_arg_marker a := by
  unfold tokenPairs at h
  rcases List.mem_map.mp h with ⟨ia, hia, hmk⟩
  rcases List.mem_filter.mp hia with ⟨hmem, hfmt⟩
  refine ⟨ia.2, ?_, by simpa using hfmt, ?_⟩
  · have : args[ia.1]? = some ia.2 := by
      have := List.mk_mem_enum_iff_getElem?.mp (by simpa using hmem)
      simpa using this
    rcases List.getElem?_eq_some.mp this with ⟨hlt, heq⟩
    exact heq ▸ List.getElem_mem hlt
  · rw [← hmk]

lemma tokenPairs_mapGet_none (flags : List Flag) (args : List String)
    (key : String)
    (h : ∀ a ∈ args, ¬(is_in_arg_format a = true ∧ strip_arg_marker a = key)) :
    mapGet (collectMap (tokenPairs flags args)) key = none := by
  apply mapGet_collectMap_eq_none
  intro pr hpr hkey
  rcases tokenPairs_mem flags args pr hpr with ⟨a, ha, hfmt, hname⟩
  exact h a ha ⟨hfmt, by rw [← hname, hkey]⟩

lemma tokenPairs_mem_of_getElem (flags : List Flag) (args : List String)
    (i : Nat) (a : String) (hget : args[i]? = some a)
    (hfmt : is_in_arg_format a = true) :
    (strip_arg_marker a,
      (args[i + 1]?).filter (fun s =>
        ((flags.find? (fun f => f.name = strip_arg_marker a)).map
          (fun f => decide (f.type_id ≠ TypeTag.bool))).getD false
        || !is_in_arg_format s)) ∈ tokenPairs flags args := by
  unfold tokenPairs
  apply List.mem_map.mpr
  refine ⟨(i, a), List.mem_filter.mpr ⟨?_, by simpa using hfmt⟩, rfl⟩
  exact List.mk_mem_enum_iff_getElem?.mpr hget

/-! ### Lemmas about the resolver -/

lemma resolveFlag_isSome (p : Program) (given : List (String × Option String))
    (f : Flag)
    (h : f.is_required = true ∨ (p.unwrap_default_flag_value f.name).isSome) :
    (resolveFlag p given f).isSome := by
  unfold resolveFlag
  cases hg : mapGet given f.name with
  | some o =>
    cases o with
    | some v => simp
    | none =>
      by_cases hb : f.type_id = TypeTag.bool
      · simp [hb]
      · simp [hb]
  | none =>
    by_cases hr : f.is_required = true
    · simp [hr]
    · rw [if_neg hr]
      rcases h with h | h
      · exact absurd h hr
      · rcases Option.isSome_iff_exists.mp h with ⟨v, hv⟩
        simp [hv]

lemma resolveFlag_ok_name (p : Program) (given : List (String × Option String))
    (f : Flag) (v : FlagValue)
    (h : resolveFlag p given f = some (Except.ok v)) : v.name = f.name := by
  unfold resolveFlag at h
  cases hg : mapGet given f.name with
  | some o =>
    cases o with
    | some w => rw [hg] at h; injection h with h; injection h with h; rw [← h]
    | none =>
      rw [hg] at h
      by_cases hb : f.type_id = TypeTag.bool
      · rw [if_pos hb] at h
        injection h with h; injection h with h; rw [← h]
      · rw [if_neg hb] at h
        injection h with h; exact absurd h (by simp)
  | none =>
    rw [hg] at h
    by_cases hr : f.is_required = true
    · rw [if_pos hr] at h
      injection h with h; exact absurd h (by simp)
    · rw [if_neg hr] at h
      cases hd : p.unwrap_default_flag_value f.name with
      | some w =>
        rw [hd] at h
        simp only [Option.map_some'] at h
        injection h with h; injection h with h; rw [← h]
      | none => rw [hd] at h; exact absurd h (by simp)

/-! ### Lemmas about the mutation collection -/

lemma collectMutations_append_some (p : Program)
    (given : List (String × Option String)) (xs ys : List Flag)
    (ms₁ ms₂ : List (Except ProgramError FlagValue))
    (h₁ : collectMutations p given xs = some ms₁)
    (h₂ : collectMutations p given ys = some ms₂) :
    collectMutations p given (xs ++ ys) = some (ms₁ ++ ms₂) := by
  induction xs generalizing ms₁ with
  | nil =>
    simp only [collectMutations] at h₁
    injection h₁ with h₁
    simpa [← h₁] using h₂
  | cons f fs ih =>
    simp only [collectMutations] at h₁ ⊢
    cases hr : resolveFlag p given f with
    | none => rw [hr] at h₁; exact absurd h₁ (by simp)
    | some r =>
      rw [hr] at h₁
      cases hc : collectMutations p given fs with
      | none => rw [hc] at h₁; exact absurd h₁ (by simp)
      | some ms' =>
        rw [hc] at h₁
        simp only [Option.map_some'] at h₁
        injection h₁ with h₁
        rw [← h₁]
        simp [ih ms' hc]

lemma collectMutations_append_inv (p : Program)
    (given : List (String × Option String)) (xs ys : List Flag)
    (ms : List (Except ProgramError FlagValue))
    (h : collectMutations p given (xs ++ ys) = some ms) :
    ∃ ms₁ ms₂, collectMutations p given xs = some ms₁ ∧
      collectMutations p given ys = some ms₂ ∧ ms = ms₁ ++ ms₂ := by
  induction xs generalizing ms with
  | nil => exact ⟨[], ms, rfl, by simpa using h, by simp⟩
  | cons f fs ih =>
    simp only [List.cons_append, collectMutations, List.append_eq] at h
    cases hr : resolveFlag p given f with
    | none => rw [hr] at h; exact absurd h (by simp)
    | some r =>
      rw [hr] at h
      cases hc : collectMutations p given (fs ++ ys) with
      | none => rw [hc] at h; exact absurd h (by simp)
      | some ms' =>
        rw [hc] at h
        simp only [Option.map_some'] at h
        injection h with h
        rcases ih ms' hc with ⟨ms₁, ms₂, hxs, hys, heq⟩
        refine ⟨r :: ms₁, ms₂, ?_, hys, by simp [← h, heq]⟩
        simp [collectMutations, hr, hxs]

lemma collectMutations_isSome (p : Program)
    (given : List (String × Option String)) (l : List Flag)
    (h : ∀ f ∈ l, (resolveFlag p given f).isSome) :
    ∃ ms, collectMutations p given l = some ms := by
  induction l with
  | nil => exact ⟨[], rfl⟩
  | cons f fs ih =>
    rcases Option.isSome_iff_exists.mp (h f (by simp)) with ⟨r, hr⟩
    rcases ih (fun g hg => h g (by simp [hg])) with ⟨ms', hms'⟩
    exact ⟨r :: ms', by simp [collectMutations, hr, hms']⟩

lemma collectMutations_of_all_ok (p : Program)
    (given : List (String × Option String)) (l : List Flag)
    (h : ∀ g ∈ l, ∃ v, resolveFlag p given g = some (Except.ok v)) :
    ∃ ms, collectMutations p given l = some ms ∧ firstError ms = none := by
  induction l with
  | nil => exact ⟨[], rfl, rfl⟩
  | cons f fs ih =>
    rcases h f (by simp) with ⟨v, hv⟩
    rcases ih (fun g hg => h g (by simp [hg])) with ⟨ms', hms', hfe⟩
    refine ⟨Except.ok v :: ms', by simp [collectMutations, hv, hms'], ?_⟩
    simpa [firstError, List.findSome?_cons] using hfe

lemma collectMutations_values_names (p : Program)
    (given : List (String × Option String)) (l : List Flag)
    (ms : List (Except ProgramError FlagValue))
    (h : collectMutations p given l = some ms) :
    ∀ w ∈ ms.filterMap Except.toOption, ∃ g ∈ l, w.name = g.name := by
  induction l generalizing ms with
  | nil =>
    simp only [collectMutations] at h
    injection h with h
    simp [← h]
  | cons f fs ih =>
    simp only [collectMutations] at h
    cases hr : resolveFlag p given f with
    | none => rw [hr] at h; exact absurd h (by simp)
    | some r =>
      rw [hr] at h
      cases hc : collectMutations p given fs with
      | none => rw [hc] at h; exact absurd h (by simp)
      | some ms' =>
        rw [hc] at h
        simp only [Option.map_some'] at h
        injection h with h
        subst h
        intro w hw
        cases r with
        | ok v =>
          simp only [List.filterMap_cons, Except.toOption, List.mem_cons] at hw
          rcases hw with hw | hw
          · exact ⟨f, by simp, hw ▸ resolveFlag_ok_name p given f v hr⟩
          · rcases ih ms' hc w hw with ⟨g, hg, hn⟩
            exact ⟨g, by simp [hg], hn⟩
        | error e =>
          simp only [List.filterMap_cons, Except.toOption] at hw
          rcases ih ms' hc w hw with ⟨g, hg, hn⟩
          exact ⟨g, by simp [hg], hn⟩

lemma collect_firstError_eq (p : Program)
    (given : List (String × Option String)) (l : List Flag)
    (ms : List (Except ProgramError FlagValue))
    (h : collectMutations p given l = some ms) :
    firstError ms = l.findSome? (fun f =>
      match resolveFlag p given f with
      | some (Except.error e) => some e
      | _ => none) := by
  induction l generalizing ms with
  | nil =>
    simp only [collectMutations] at h
    injection h with h
    simp [← h, firstError]
  | cons f fs ih =>
    simp only [collectMutations] at h
    cases hr : resolveFlag p given f with
    | none => rw [hr] at h; exact absurd h (by simp)
    | some r =>
      rw [hr] at h
      cases hc : collectMutations p given fs with
      | none => rw [hc] at h; exact absurd h (by simp)
      | some ms' =>
        rw [hc] at h
        simp only [Option.map_some'] at h
        injection h with h
        subst h
        rw [List.findSome?_cons, hr]
        cases r with
        | ok v => simpa [firstError, List.findSome?_cons] using ih ms' hc
        | error e => simp [firstError, List.findSome?_cons]

/-! ### Inversion lemmas for the parse entry point -/

lemma parse_ok_inv (p : Program) (args : List String) (p' : Program)
    (h : p.parse_from_strings args = ParseOutcome.ok p') :
    ∃ ms, collectMutations p (collectMap (tokenPairs p.flags args)) p.flags = some ms ∧
      firstError ms = none ∧
      mapContains (collectMap (tokenPairs p.flags args)) HELP_FLAG = false ∧
      p' = { p with flag_values := ms.filterMap Except.toOption } := by
  simp only [Program.parse_from_strings] at h
  cases hc : collectMutations p (collectMap (tokenPairs p.flags args)) p.flags with
  | none => simp only [hc] at h; exact absurd h (by simp)
  | some ms =>
    simp only [hc] at h
    cases hf : firstError ms with
    | some e => simp only [hf] at h; exact absurd h (by simp)
    | none =>
      simp only [hf] at h
      by_cases hh : mapContains (collectMap (tokenPairs p.flags args)) HELP_FLAG = true
      · rw [if_pos hh] at h; exact absurd h (by simp)
      · rw [if_neg hh] at h
        injection h with h
        exact ⟨ms, rfl, hf, by simpa using hh, h.symm⟩

lemma parse_err_inv (p : Program) (args : List String) (p' : Program)
    (e : ProgramError) (h : p.parse_from_strings args = ParseOutcome.err p' e) :
    p' = p ∧ ∃ ms,
      collectMutations p (collectMap (tokenPairs p.flags args)) p.flags = some ms ∧
      (firstError ms = some e ∨
        (firstError ms = none ∧ e = ProgramError.HelpFlagGiven ∧
          mapContains (collectMap (tokenPairs p.flags args)) HELP_FLAG = true)) := by
  simp only [Program.parse_from_strings] at h
  cases hc : collectMutations p (collectMap (tokenPairs p.flags args)) p.flags with
  | none => simp only [hc] at h; exact absurd h (by simp)
  | some ms =>
    simp only [hc] at h
    cases hf : firstError ms with
    | some e' =>
      simp only [hf] at h
      injection h with h1 h2
      exact ⟨h1.symm, ms, rfl, Or.inl (h2 ▸ hf)⟩
    | none =>
      simp only [hf] at h
      by_cases hh : mapContains (collectMap (tokenPairs p.flags args)) HELP_FLAG = true
      · rw [if_pos hh] at h
        injection h with h1 h2
        exact ⟨h1.symm, ms, rfl, Or.inr ⟨hf, h2.symm, hh⟩⟩
      · rw [if_neg hh] at h; exact absurd h (by simp)

lemma parse_eq_err_of_firstError (p : Program) (args : List String)
    (ms : List (Except ProgramError FlagValue)) (e : ProgramError)
    (hc : collectMutations p (collectMap (tokenPairs p.flags args)) p.flags = some ms)
    (hf : firstError ms = some e) :
    p.parse_from_strings args = ParseOutcome.err p e := by
  simp only [Program.parse_from_strings, hc, hf]

/-! ### Builder inversion and invariant preservation -/

lemma add_flag_ok_inv (p : Program) (name desc : String) (tag : TypeTag)
    (req : Bool) (q : Program)
    (h : p.add_flag name desc tag req = Except.ok q) :
    (∀ f ∈ p.flags, f.name ≠ name) ∧
    q = { p with flags := p.flags ++ [⟨name, desc, req, tag⟩] } := by
  unfold Program.add_flag at h
  by_cases hany : p.flags.any (fun f => decide (f.name = name)) = true
  · rw [if_pos hany] at h; exact absurd h (by simp)
  · rw [if_neg hany] at h
    injection h with h
    refine ⟨?_, h.symm⟩
    intro f hf hname
    exact hany (by simp only [List.any_eq_true, decide_eq_true_eq]; exact ⟨f, hf, hname⟩)

lemma with_optional_flag_ok_inv {α : Type} (toStr : α → String) (p : Program)
    (tag : TypeTag) (name : String) (d : α) (desc : String) (q : Program)
    (h : p.with_optional_flag toStr tag name d desc = Except.ok q) :
    (∀ f ∈ p.flags, f.name ≠ name) ∧
    q = ⟨p.description, p.flags ++ [⟨name, desc, false, tag⟩],
      p.flag_defaults ++ [⟨name, toStr d⟩], p.flag_values⟩ := by
  unfold Program.with_optional_flag at h
  cases ha : p.add_flag name desc tag false with
  | error e => rw [ha] at h; exact absurd h (by simp)
  | ok q' =>
    rw [ha] at h
    injection h with h
    rcases add_flag_ok_inv p name desc tag false q' ha with ⟨hfresh, hq'⟩
    refine ⟨hfresh, ?_⟩
    rw [← h, hq']

lemma reachable_strong (p : Program) (h : Reachable p) :
    DistinctFlagNames p ∧ DefaultNamesMatch p := by
  induction h with
  | base => exact ⟨by simp [DistinctFlagNames, Program.new], by simp [DefaultNamesMatch, Program.new]⟩
  | described desc hp ih =>
    exact ⟨ih.1, ih.2⟩
  | required_flag tag name desc hp heq ih =>
    rcases add_flag_ok_inv _ name desc tag true _ heq with ⟨hfresh, hq⟩
    subst hq
    constructor
    · simp only [DistinctFlagNames, List.map_append, List.map_cons, List.map_nil]
      rw [List.nodup_append]
      refine ⟨ih.1, List.nodup_singleton _, ?_⟩
      intro a ha hb
      simp only [List.mem_singleton] at hb
      subst hb
      rcases List.mem_map.mp ha with ⟨f, hf, hname⟩
      exact hfresh f hf hname
    · simp only [DefaultNamesMatch, List.filter_append]
      have : List.filter (fun f => decide (f.is_required = false))
          [(⟨name, desc, true, tag⟩ : Flag)] = [] := by simp
      rw [this, List.append_nil]
      exact ih.2
  | optional_flag α toStr tag name d desc hp heq ih =>
    rcases with_optional_flag_ok_inv toStr _ tag name d desc _ heq with ⟨hfresh, hq⟩
    subst hq
    constructor
    · simp only [DistinctFlagNames, List.map_append, List.map_cons, List.map_nil]
      rw [List.nodup_append]
      refine ⟨ih.1, List.nodup_singleton _, ?_⟩
      intro a ha hb
      simp only [List.mem_singleton] at hb
      subst hb
      rcases List.mem_map.mp ha with ⟨f, hf, hname⟩
      exact hfresh f hf hname
    · unfold DefaultNamesMatch
      dsimp only
      simp only [List.filter_append, List.map_append]
      have : List.filter (fun f => decide (f.is_required = false))
          [(⟨name, desc, false, tag⟩ : Flag)] = [⟨name, desc, false, tag⟩] := by simp
      rw [this]
      simp only [List.map_cons, List.map_nil]
      rw [ih.2]
  | parsed args hp heq ih =>
    rcases parse_ok_inv _ args _ heq with ⟨ms, _, _, _, hq⟩
    subst hq
    exact ⟨ih.1, ih.2⟩

lemma filter_name_length_eq_count (l : List FlagValue) (n : String) :
    (l.filter (fun fv => fv.name = n)).length = (l.map FlagValue.name).count n := by
  induction l with
  | nil => simp
  | cons fv l ih =>
    by_cases h : fv.name = n
    · simp [List.filter_cons, h, List.count_cons, ih]
    · simp [List.filter_cons, h, List.count_cons, ih]

lemma defaults_names_nodup (p : Program) (hd : DistinctFlagNames p)
    (hm : DefaultNamesMatch p) : (p.flag_defaults.map FlagValue.name).Nodup := by
  rw [hm]
  exact List.Nodup.sublist ((List.filter_sublist p.flags).map Flag.name) hd

lemma one_default_of_invariants (p : Program) (hd : DistinctFlagNames p)
    (hm : DefaultNamesMatch p) : OneDefaultPerOptional p := by
  intro f hf hopt
  rw [filter_name_length_eq_count]
  apply List.count_eq_one_of_mem (defaults_names_nodup p hd hm)
  rw [hm]
  exact List.mem_map.mpr ⟨f, List.mem_filter.mpr ⟨hf, by simp [hopt]⟩, rfl⟩

lemma hasAllDefaults_of_one (p : Program) (h : OneDefaultPerOptional p) :
    HasAllDefaults p := by
  intro f hf hopt
  have hlen := h f hf hopt
  cases hfil : p.flag_defaults.filter (fun fv => fv.name = f.name) with
  | nil => rw [hfil] at hlen; simp at hlen
  | cons fv rest =>
    have hmem : fv ∈ p.flag_defaults.filter (fun fv => decide (fv.name = f.name)) := by
      rw [hfil]; simp
    rcases List.mem_filter.mp hmem with ⟨hmem', hname⟩
    unfold Program.unwrap_default_flag_value
    have hsome : (p.flag_defaults.find? (fun fv => decide (fv.name = f.name))).isSome := by
      rw [List.find?_isSome]
      exact ⟨fv, hmem', hname⟩
    rcases Option.isSome_iff_exists.mp hsome with ⟨v, hv⟩
    simp [hv]

lemma parse_ne_panic_of_defaults (p : Program) (h : HasAllDefaults p)
    (args : List String) : p.parse_from_strings args ≠ ParseOutcome.panic := by
  have hsome : ∀ f ∈ p.flags,
      (resolveFlag p (collectMap (tokenPairs p.flags args)) f).isSome := by
    intro f hf
    apply resolveFlag_isSome
    cases hr : f.is_required with
    | true => exact Or.inl rfl
    | false => exact Or.inr (h f hf hr)
  rcases collectMutations_isSome p _ p.flags hsome with ⟨ms, hms⟩
  intro hcon
  simp only [Program.parse_from_strings, hms] at hcon
  cases hf : firstError ms with
  | some e => simp [hf] at hcon
  | none =>
    simp only [hf] at hcon
    by_cases hh : mapContains (collectMap (tokenPairs p.flags args)) HELP_FLAG = true
    · simp [hh] at hcon
    · simp [hh] at hcon

/-! ### The claims -/

/-- Claim C1: parsing is all-or-nothing — whenever `parse_from_strings`
returns an error, the program state at the error return is exactly the
input program (so its resolved-value set is exactly what it was before the
parse attempt: empty on a first parse, or the values of the last
successful parse), and the error returned is the first per-flag resolution
failure in registration order (the reserved help error is returned only
when no flag fails). -/
theorem C1_parse_all_or_nothing (p : Program) (args : List String)
    (p' : Program) (e : ProgramError)
    (h : p.parse_from_strings args = ParseOutcome.err p' e) :
    p' = p ∧ p'.flag_values = p.flag_values ∧
    (firstFlagError p args = some e ∨
      (e = ProgramError.HelpFlagGiven ∧ firstFlagError p args = none)) := by
  rcases parse_err_inv p args p' e h with ⟨hp, ms, hc, hcase⟩
  refine ⟨hp, by rw [hp], ?_⟩
  have hfe := collect_firstError_eq p (collectMap (tokenPairs p.flags args)) p.flags ms hc
  rcases hcase with hf | ⟨hf, he, hh⟩
  · exact Or.inl (by rw [firstFlagError, ← hfe]; exact hf)
  · exact Or.inr ⟨he, by rw [firstFlagError, ← hfe]; exact hf⟩

theorem C1_parse_all_or_nothing_witness :
    (⟨"", [⟨"name", "Your name", true, TypeTag.str⟩], [], []⟩ : Program) =
      ⟨"", [⟨"name", "Your name", true, TypeTag.str⟩], [], []⟩ ∧
    (⟨"", [⟨"name", "Your name", true, TypeTag.str⟩], [], []⟩ : Program).flag_values =
      (⟨"", [⟨"name", "Your name", true, TypeTag.str⟩], [], []⟩ : Program).flag_values ∧
    (firstFlagError ⟨"", [⟨"name", "Your name", true, TypeTag.str⟩], [], []⟩ [] =
        some (ProgramError.RequiredArgWasNotGiven "name") ∨
      (ProgramError.RequiredArgWasNotGiven "name" = ProgramError.HelpFlagGiven ∧
        firstFlagError ⟨"", [⟨"name", "Your name", true, TypeTag.str⟩], [], []⟩ [] = none)) :=
  C1_parse_all_or_nothing ⟨"", [⟨"name", "Your name", true, TypeTag.str⟩], [], []⟩ []
    ⟨"", [⟨"name", "Your name", true, TypeTag.str⟩], [], []⟩
    (ProgramError.RequiredArgWasNotGiven "name") (by decide)

/-- Claim C5: boolean toggling — after registering a boolean flag, parsing
`["--flag"]` stores the canonical `"true"` string for it (the flag was
found without an explicit value), so a `bool` retrieval returns `true`;
and for an optional boolean flag with default `false`, parsing `[]`
retrieves `false`. -/
theorem C5_boolean_toggling :
    (∃ p₁, Program.new.with_required_flag TypeTag.bool "flag" "d" = Except.ok p₁ ∧
      ∃ p₂, p₁.parse_from_strings ["--flag"] = ParseOutcome.ok p₂ ∧
        p₂.flag_values = [⟨"flag", "true"⟩] ∧
        p₂.get parseRustBool "bool" "flag" = Except.ok true) ∧
    (∃ q₁, Program.new.with_optional_flag rustBoolToString TypeTag.bool "flag" false "d" =
        Except.ok q₁ ∧
      ∃ q₂, q₁.parse_from_strings [] = ParseOutcome.ok q₂ ∧
        q₂.get parseRustBool "bool" "flag" = Except.ok false) := by
  refine ⟨⟨⟨"", [⟨"flag", "d", true, TypeTag.bool⟩], [], []⟩, by decide,
    ⟨"", [⟨"flag", "d", true, TypeTag.bool⟩], [], [⟨"flag", "true"⟩]⟩,
    by decide, by decide, by decide⟩,
    ⟨"", [⟨"flag", "d", false, TypeTag.bool⟩], [⟨"flag", "false"⟩], []⟩, by decide,
    ⟨"", [⟨"flag", "d", false, TypeTag.bool⟩], [⟨"flag", "false"⟩], [⟨"flag", "false"⟩]⟩,
    by decide, by decide⟩

/-- Claim C6: registering a flag (required or optional) under a name that
is already registered fails with `FlagAlreadyExistsWithName` carrying that
name; only the error is returned, so the program's flag list, defaults and
resolved values are exactly as before the call. -/
theorem C6_duplicate_registration (p : Program) (name : String)
    (h : ∃ f ∈ p.flags, f.name = name) :
    (∀ desc tag req, p.add_flag name desc tag req =
        Except.error (ProgramError.FlagAlreadyExistsWithName name)) ∧
    (∀ tag desc, p.with_required_flag tag name desc =
        Except.error (ProgramError.FlagAlreadyExistsWithName name)) ∧
    (∀ (α : Type) (toStr : α → String) (tag : TypeTag) (d : α) (desc : String),
      p.with_optional_flag toStr tag name d desc =
        Except.error (ProgramError.FlagAlreadyExistsWithName name)) := by
  have hany : p.flags.any (fun f => decide (f.name = name)) = true := by
    simp only [List.any_eq_true, decide_eq_true_eq]
    rcases h with ⟨f, hf, hn⟩
    exact ⟨f, hf, hn⟩
  have hadd : ∀ desc tag req, p.add_flag name desc tag req =
      Except.error (ProgramError.FlagAlreadyExistsWithName name) := by
    intro desc tag req
    unfold Program.add_flag
    rw [if_pos hany]
  refine ⟨hadd, fun tag desc => hadd desc tag true, ?_⟩
  intro α toStr tag d desc
  unfold Program.with_optional_flag
  rw [hadd desc tag false]

theorem C6_duplicate_registration_witness :
    (∀ desc tag req,
      Program.add_flag ⟨"", [⟨"oh-noes", "", true, TypeTag.bool⟩], [], []⟩
          "oh-noes" desc tag req =
        Except.error (ProgramError.FlagAlreadyExistsWithName "oh-noes")) ∧
    (∀ tag desc,
      Program.with_required_flag ⟨"", [⟨"oh-noes", "", true, TypeTag.bool⟩], [], []⟩
          tag "oh-noes" desc =
        Except.error (ProgramError.FlagAlreadyExistsWithName "oh-noes")) ∧
    (∀ (α : Type) (toStr : α → String) (tag : TypeTag) (d : α) (desc : String),
      Program.with_optional_flag ⟨"", [⟨"oh-noes", "", true, TypeTag.bool⟩], [], []⟩
          toStr tag "oh-noes" d desc =
        Except.error (ProgramError.FlagAlreadyExistsWithName "oh-noes")) :=
  C6_duplicate_registration ⟨"", [⟨"oh-noes", "", true, TypeTag.bool⟩], [], []⟩
    "oh-noes" ⟨⟨"oh-noes", "", true, TypeTag.bool⟩, by decide, rfl⟩

/-- Claim C7: when the reserved name `help` is tokenized as present, a
parse never succeeds; it returns the distinguished `HelpFlagGiven` outcome
when no per-flag resolution failure exists, and the first required-flag
failure takes precedence over the help outcome when both hold. -/
theorem C7_help_flag (p : Program) (args : List String)
    (hhelp : mapContains (collectMap (tokenPairs p.flags args)) HELP_FLAG = true) :
    (∀ q, p.parse_from_strings args ≠ ParseOutcome.ok q) ∧
    (∀ ms, collectMutations p (collectMap (tokenPairs p.flags args)) p.flags = some ms →
      (firstError ms = none →
        p.parse_from_strings args = ParseOutcome.err p ProgramError.HelpFlagGiven) ∧
      (∀ e, firstError ms = some e →
        p.parse_from_strings args = ParseOutcome.err p e)) := by
  constructor
  · intro q hq
    rcases parse_ok_inv p args q hq with ⟨ms, _, _, hh, _⟩
    rw [hhelp] at hh
    exact absurd hh (by simp)
  · intro ms hms
    constructor
    · intro hfe
      simp [Program.parse_from_strings, hms, hfe, hhelp]
    · intro e hfe
      exact parse_eq_err_of_firstError p args ms e hms hfe

theorem C7_help_flag_witness :
    Program.new.parse_from_strings ["--help"] =
      ParseOutcome.err Program.new ProgramError.HelpFlagGiven ∧
    Program.parse_from_strings
        ⟨"", [⟨"name", "d", true, TypeTag.str⟩], [], []⟩ ["--help"] =
      ParseOutcome.err ⟨"", [⟨"name", "d", true, TypeTag.str⟩], [], []⟩
        (ProgramError.RequiredArgWasNotGiven "name") :=
  ⟨((C7_help_flag Program.new ["--help"] (by decide)).2 [] (by decide)).1 (by decide),
   ((C7_help_flag ⟨"", [⟨"name", "d", true, TypeTag.str⟩], [], []⟩ ["--help"]
      (by decide)).2 [Except.error (ProgramError.RequiredArgWasNotGiven "name")]
      (by decide)).2 (ProgramError.RequiredArgWasNotGiven "name") (by decide)⟩

/-- Claim C8: typed retrieval — `get` fails with
`NoSuchFlagExistsWithName` when no resolved value with the requested name
exists, fails with `FailedToParseFlagValue` (carrying the flag name and
the requested type's name) when the stored string does not convert, and
never consults the kind tag recorded at registration: its result depends
only on the resolved values, so a mismatched requested type surfaces as a
late conversion failure, not an early kind-mismatch error. -/
theorem C8_typed_access {α : Type} (parseFn : String → Option α)
    (type_name name : String) :
    (∀ p : Program, p.flag_values.find? (fun fv => fv.name = name) = none →
      p.get parseFn type_name name =
        Except.error (ProgramError.NoSuchFlagExistsWithName name)) ∧
    (∀ (p : Program) (fv : FlagValue),
      p.flag_values.find? (fun fv => fv.name = name) = some fv →
      parseFn fv.str_value = none →
      p.get parseFn type_name name =
        Except.error (ProgramError.FailedToParseFlagValue name type_name)) ∧
    (∀ p q : Program, p.flag_values = q.flag_values →
      p.get parseFn type_name name = q.get parseFn type_name name) := by
  refine ⟨?_, ?_, ?_⟩
  · intro p hf
    simp [Program.get, hf]
  · intro p fv hf hp
    simp [Program.get, hf, hp]
  · intro p q hpq
    simp [Program.get, hpq]

theorem C8_typed_access_witness :
    Program.get (parseRustUint 8) "u8" ⟨"", [], [], []⟩ "age" =
      Except.error (ProgramError.NoSuchFlagExistsWithName "age") ∧
    Program.get (parseRustUint 8) "u8"
        ⟨"", [⟨"age", "", true, TypeTag.u8⟩], [], [⟨"age", "who?"⟩]⟩ "age" =
      Except.error (ProgramError.FailedToParseFlagValue "age" "u8") ∧
    Program.get (parseRustUint 8) "u8"
        ⟨"", [⟨"age", "", true, TypeTag.str⟩], [], [⟨"age", "7"⟩]⟩ "age" =
      Program.get (parseRustUint 8) "u8" ⟨"x", [], [], [⟨"age", "7"⟩]⟩ "age" :=
  ⟨(C8_typed_access (parseRustUint 8) "u8" "age").1 ⟨"", [], [], []⟩ (by decide),
   (C8_typed_access (parseRustUint 8) "u8" "age").2.1
     ⟨"", [⟨"age", "", true, TypeTag.u8⟩], [], [⟨"age", "who?"⟩]⟩
     ⟨"age", "who?"⟩ (by decide) (by decide),
   (C8_typed_access (parseRustUint 8) "u8" "age").2.2
     ⟨"", [⟨"age", "", true, TypeTag.str⟩], [], [⟨"age", "7"⟩]⟩
     ⟨"x", [], [], [⟨"age", "7"⟩]⟩ (by decide)⟩

/-- Claim C9: duplicate flag markers — the map handed to the resolver has
pairwise distinct keys (exactly one entry per name), and the value looked
up for any name is the one of the last tokenizer pair with that name,
i.e. the value belonging to the last occurrence of the marker in the
argument list. -/
theorem C9_last_occurrence_wins (flags : List Flag) (args : List String) :
    ((collectMap (tokenPairs flags args)).map Prod.fst).Nodup ∧
    ∀ key, mapGet (collectMap (tokenPairs flags args)) key =
      ((tokenPairs flags args).reverse.find? (fun pr => pr.1 = key)).map
        (fun pr => pr.2) :=
  ⟨collectMap_keys_nodup (tokenPairs flags args),
   fun key => mapGet_collectMap (tokenPairs flags args) key⟩

/-- Claim C10: every program reachable through the public builder API has
pairwise distinct flag names and exactly one default entry per optional
flag, and consequently the resolver's unchecked default lookup can never
fail: no parse of such a program panics. -/
theorem C10_builder_invariants (p : Program) (h : Reachable p) :
    DistinctFlagNames p ∧ OneDefaultPerOptional p ∧
    ∀ args, p.parse_from_strings args ≠ ParseOutcome.panic := by
  rcases reachable_strong p h with ⟨hd, hm⟩
  have hone := one_default_of_invariants p hd hm
  exact ⟨hd, hone, fun args =>
    parse_ne_panic_of_defaults p (hasAllDefaults_of_one p hone) args⟩

theorem C10_builder_invariants_witness :
    DistinctFlagNames ⟨"", [⟨"flag", "d", false, TypeTag.bool⟩], [⟨"flag", "false"⟩], []⟩ ∧
    OneDefaultPerOptional ⟨"", [⟨"flag", "d", false, TypeTag.bool⟩], [⟨"flag", "false"⟩], []⟩ ∧
    ∀ args, Program.parse_from_strings
        ⟨"", [⟨"flag", "d", false, TypeTag.bool⟩], [⟨"flag", "false"⟩], []⟩ args ≠
      ParseOutcome.panic :=
  C10_builder_invariants ⟨"", [⟨"flag", "d", false, TypeTag.bool⟩], [⟨"flag", "false"⟩], []⟩
    (Reachable.optional_flag Bool rustBoolToString TypeTag.bool "flag" false "d"
      Reachable.base (by decide))

/-- Claim C2 counterexample: for a registered boolean flag `flag`, the
tokenizer does consume the immediately following non-marker token
(`"hello"`) as the flag's value, so a `--flag` occurrence is not mapped to
"no explicit value regardless of what the next token is". -/
theorem C2_counterexample :
    tokenPairs [⟨"flag", "d", true, TypeTag.bool⟩] ["--flag", "hello"] =
      [("flag", some "hello")] ∧
    mapGet (collectMap (tokenPairs [⟨"flag", "d", true, TypeTag.bool⟩]
      ["--flag", "hello"])) "flag" = some (some "hello") := by
  decide

/-- Claim C2 (amended): for a marker token matching a registered flag, the
tokenizer consumes the next token as the value exactly when it is present
and (the matched flag's kind is non-boolean) or (the token does not itself
look like a flag marker).  In particular a boolean flag's marker followed
by another marker, or at the end of input, gets no explicit value, while a
non-boolean flag consumes the next token whenever one is present. -/
theorem C2_tokenizer_value_consumption (flags : List Flag)
    (args : List String) (i : Nat) (a : String) (f : Flag)
    (hget : args[i]? = some a) (hfmt : is_in_arg_format a = true)
    (hfind : flags.find? (fun g => g.name = strip_arg_marker a) = some f) :
    (f.type_id = TypeTag.bool →
      (strip_arg_marker a,
        (args[i + 1]?).filter (fun s => !is_in_arg_format s)) ∈
        tokenPairs flags args) ∧
    (f.type_id ≠ TypeTag.bool →
      (strip_arg_marker a, args[i + 1]?) ∈ tokenPairs flags args) := by
  have hmem := tokenPairs_mem_of_getElem flags args i a hget hfmt
  constructor
  · intro hb
    have hfun : (fun s => ((flags.find? (fun g => g.name = strip_arg_marker a)).map
          (fun f => decide (f.type_id ≠ TypeTag.bool))).getD false
          || !is_in_arg_format s) = (fun s => !is_in_arg_format s) := by
      funext s
      rw [hfind]
      simp [hb]
    rw [hfun] at hmem
    exact hmem
  · intro hb
    have hfun : (fun s : String =>
        ((flags.find? (fun g => g.name = strip_arg_marker a)).map
          (fun f => decide (f.type_id ≠ TypeTag.bool))).getD false
          || !is_in_arg_format s) = (fun _ => true) := by
      funext s
      rw [hfind]
      simp [hb]
    rw [hfun] at hmem
    have hid : (args[i + 1]?).filter (fun _ => true) = args[i + 1]? := by
      cases args[i + 1]? <;> rfl
    rw [hid] at hmem
    exact hmem

theorem C2_tokenizer_value_consumption_witness :
    (((⟨"flag", "d", true, TypeTag.bool⟩ : Flag).type_id = TypeTag.bool →
      (strip_arg_marker "--flag",
        (["--flag", "--x"][0 + 1]?).filter (fun s => !is_in_arg_format s)) ∈
        tokenPairs [⟨"flag", "d", true, TypeTag.bool⟩] ["--flag", "--x"]) ∧
    ((⟨"flag", "d", true, TypeTag.bool⟩ : Flag).type_id ≠ TypeTag.bool →
      (strip_arg_marker "--flag", ["--flag", "--x"][0 + 1]?) ∈
        tokenPairs [⟨"flag", "d", true, TypeTag.bool⟩] ["--flag", "--x"])) ∧
    (((⟨"count", "d", true, TypeTag.u64⟩ : Flag).type_id = TypeTag.bool →
      (strip_arg_marker "--count",
        (["--count", "--5"][0 + 1]?).filter (fun s => !is_in_arg_format s)) ∈
        tokenPairs [⟨"count", "d", true, TypeTag.u64⟩] ["--count", "--5"]) ∧
    ((⟨"count", "d", true, TypeTag.u64⟩ : Flag).type_id ≠ TypeTag.bool →
      (strip_arg_marker "--count", ["--count", "--5"][0 + 1]?) ∈
        tokenPairs [⟨"count", "d", true, TypeTag.u64⟩] ["--count", "--5"])) :=
  ⟨C2_tokenizer_value_consumption [⟨"flag", "d", true, TypeTag.bool⟩]
      ["--flag", "--x"] 0 "--flag" ⟨"flag", "d", true, TypeTag.bool⟩
      (by decide) (by decide) (by decide),
   C2_tokenizer_value_consumption [⟨"count", "d", true, TypeTag.u64⟩]
      ["--count", "--5"] 0 "--count" ⟨"count", "d", true, TypeTag.u64⟩
      (by decide) (by decide) (by decide)⟩

/-- Claim C3 counterexample: with two required flags `a` and `b` (in that
registration order) and an argument list omitting both markers, the parse
fails naming `a`, not `b` — so "fails with RequiredArgWasNotGiven naming
that flag" does not hold of every omitted required flag, only of the first
failing one. -/
theorem C3_counterexample :
    Program.parse_from_strings
        ⟨"", [⟨"a", "", true, TypeTag.str⟩, ⟨"b", "", true, TypeTag.str⟩], [], []⟩ [] =
      ParseOutcome.err
        ⟨"", [⟨"a", "", true, TypeTag.str⟩, ⟨"b", "", true, TypeTag.str⟩], [], []⟩
        (ProgramError.RequiredArgWasNotGiven "a") ∧
    ProgramError.RequiredArgWasNotGiven "a" ≠
      ProgramError.RequiredArgWasNotGiven "b" := by
  decide

/-- Claim C3 (amended): for a program whose optional flags all have
defaults, if a flag `f` is required and its marker is absent from the
argument list entirely — or `f` is non-boolean and the tokenizer
associated no value with it — and every flag registered before `f`
resolves successfully, then the parse fails with `RequiredArgWasNotGiven`
naming `f`.  (Without the "earlier flags resolve" condition the error
names the first failing flag in registration order, per C1.) -/
theorem C3_required_arg_missing (p : Program) (args : List String)
    (l₁ l₂ : List Flag) (f : Flag)
    (hwf : HasAllDefaults p)
    (hsplit : p.flags = l₁ ++ f :: l₂)
    (hok : ∀ g ∈ l₁, ∃ v,
      resolveFlag p (collectMap (tokenPairs p.flags args)) g = some (Except.ok v))
    (hcase :
      (f.is_required = true ∧
        ∀ a ∈ args, ¬(is_in_arg_format a = true ∧ strip_arg_marker a = f.name)) ∨
      (f.type_id ≠ TypeTag.bool ∧
        mapGet (collectMap (tokenPairs p.flags args)) f.name = some none)) :
    p.parse_from_strings args =
      ParseOutcome.err p (ProgramError.RequiredArgWasNotGiven f.name) := by
  have hresf : resolveFlag p (collectMap (tokenPairs p.flags args)) f =
      some (Except.error (ProgramError.RequiredArgWasNotGiven f.name)) := by
    rcases hcase with ⟨hreq, homit⟩ | ⟨hnb, hval⟩
    · have hnone : mapGet (collectMap (tokenPairs p.flags args)) f.name = none :=
        tokenPairs_mapGet_none p.flags args f.name homit
      unfold resolveFlag
      rw [hnone, if_pos hreq]
    · unfold resolveFlag
      rw [hval, if_neg hnb]
  rcases collectMutations_of_all_ok p (collectMap (tokenPairs p.flags args)) l₁ hok
    with ⟨ms₁, hc₁, hfe₁⟩
  have hl₂ : ∀ g ∈ l₂,
      (resolveFlag p (collectMap (tokenPairs p.flags args)) g).isSome := by
    intro g hg
    apply resolveFlag_isSome
    cases hr : g.is_required with
    | true => exact Or.inl rfl
    | false =>
      refine Or.inr (hwf g ?_ hr)
      rw [hsplit]
      exact List.mem_append.mpr (Or.inr (by simp [hg]))
  rcases collectMutations_isSome p (collectMap (tokenPairs p.flags args)) l₂ hl₂
    with ⟨ms₂, hc₂⟩
  have hcf : collectMutations p (collectMap (tokenPairs p.flags args)) (f :: l₂) =
      some (Except.error (ProgramError.RequiredArgWasNotGiven f.name) :: ms₂) := by
    simp [collectMutations, hresf, hc₂]
  have hcall := collectMutations_append_some p (collectMap (tokenPairs p.flags args))
    l₁ (f :: l₂) ms₁ _ hc₁ hcf
  rw [← hsplit] at hcall
  have hfe : firstError
      (ms₁ ++ Except.error (ProgramError.RequiredArgWasNotGiven f.name) :: ms₂) =
      some (ProgramError.RequiredArgWasNotGiven f.name) := by
    unfold firstError at hfe₁ ⊢
    rw [List.findSome?_append, hfe₁, List.findSome?_cons]
    simp
  exact parse_eq_err_of_firstError p args _ _ hcall hfe

theorem C3_required_arg_missing_witness :
    Program.parse_from_strings ⟨"", [⟨"req", "d", true, TypeTag.str⟩], [], []⟩ [] =
      ParseOutcome.err ⟨"", [⟨"req", "d", true, TypeTag.str⟩], [], []⟩
        (ProgramError.RequiredArgWasNotGiven "req") :=
  C3_required_arg_missing ⟨"", [⟨"req", "d", true, TypeTag.str⟩], [], []⟩ []
    [] [] ⟨"req", "d", true, TypeTag.str⟩
    (by unfold HasAllDefaults; decide) (by decide) (by simp)
    (Or.inl ⟨rfl, by simp⟩)

/-- Claim C4: an optional flag's default is stored as its canonical string
conversion once at registration (`flag_defaults` gains exactly the entry
`(name, toStr d)`), and a successful parse of any argument list omitting
the flag's marker resolves the flag to that stored string, so retrieval
returns exactly it.  (The `hfresh` hypothesis — no stale default entry
already carries the name — always holds of builder-reachable programs by
C10's invariant.) -/
theorem C4_default_value_frozen {α : Type} (toStr : α → String)
    (p p₁ p₂ : Program) (tag : TypeTag) (name : String) (d : α)
    (desc : String) (args : List String)
    (hreg : p.with_optional_flag toStr tag name d desc = Except.ok p₁)
    (hfresh : ∀ fv ∈ p.flag_defaults, fv.name ≠ name)
    (homit : ∀ a ∈ args, ¬(is_in_arg_format a = true ∧ strip_arg_marker a = name))
    (hok : p₁.parse_from_strings args = ParseOutcome.ok p₂) :
    p₁.flag_defaults = p.flag_defaults ++ [⟨name, toStr d⟩] ∧
    p₂.get parseRustString "String" name = Except.ok (toStr d) := by
  rcases with_optional_flag_ok_inv toStr p tag name d desc p₁ hreg with ⟨hflags, hp₁⟩
  subst hp₁
  refine ⟨rfl, ?_⟩
  rcases parse_ok_inv _ args p₂ hok with ⟨ms, hc, hfe, hh, hp₂⟩
  rcases collectMutations_append_inv _ _ p.flags [⟨name, desc, false, tag⟩] ms hc
    with ⟨ms₁, ms₂, hc₁, hc₂, hms⟩
  have hnone : mapGet (collectMap (tokenPairs (p.flags ++ [⟨name, desc, false, tag⟩]) args))
      name = none :=
    tokenPairs_mapGet_none _ args name homit
  have hres : resolveFlag
      ⟨p.description, p.flags ++ [⟨name, desc, false, tag⟩],
        p.flag_defaults ++ [⟨name, toStr d⟩], p.flag_values⟩
      (collectMap (tokenPairs (p.flags ++ [⟨name, desc, false, tag⟩]) args))
      ⟨name, desc, false, tag⟩ =
      some (Except.ok ⟨name, toStr d⟩) := by
    have hdef :
        Program.unwrap_default_flag_value
          ⟨p.description, p.flags ++ [⟨name, desc, false, tag⟩],
            p.flag_defaults ++ [⟨name, toStr d⟩], p.flag_values⟩ name =
        some (toStr d) := by
      unfold Program.unwrap_default_flag_value
      have h₁ : p.flag_defaults.find? (fun fv => decide (fv.name = name)) = none := by
        rw [List.find?_eq_none]
        intro fv hfv
        simpa using hfresh fv hfv
      simp only [List.find?_append, h₁, Option.none_or, List.find?_cons]
      simp
    simp [resolveFlag, hnone, hdef]
  have hms₂ : ms₂ = [Except.ok ⟨name, toStr d⟩] := by
    simp only [collectMutations, hres] at hc₂
    simp only [collectMutations, Option.map_some'] at hc₂
    injection hc₂ with hc₂
    exact hc₂.symm
  have hvals : p₂.flag_values =
      ms₁.filterMap Except.toOption ++ [(⟨name, toStr d⟩ : FlagValue)] := by
    rw [hp₂]
    rw [hms, hms₂, List.filterMap_append]
    rfl
  have hfind : p₂.flag_values.find? (fun fv => fv.name = name) =
      some ⟨name, toStr d⟩ := by
    rw [hvals, List.find?_append]
    have h₁ : (ms₁.filterMap Except.toOption).find?
        (fun fv => decide (fv.name = name)) = none := by
      rw [List.find?_eq_none]
      intro w hw
      rcases collectMutations_values_names _ _ p.flags ms₁ hc₁ w hw with ⟨g, hg, hn⟩
      simpa [hn] using hflags g hg
    simp only [h₁, Option.none_or, List.find?_cons]
    simp
  unfold Program.get
  rw [hfind]
  rfl

theorem C4_default_value_frozen_witness :
    Program.flag_defaults
        ⟨"", [⟨"name", "d", false, TypeTag.string⟩], [⟨"name", "Mr. Ollie"⟩], []⟩ =
      Program.flag_defaults ⟨"", [], [], []⟩ ++ [⟨"name", "Mr. Ollie"⟩] ∧
    Program.get parseRustString "String"
        ⟨"", [⟨"name", "d", false, TypeTag.string⟩], [⟨"name", "Mr. Ollie"⟩],
          [⟨"name", "Mr. Ollie"⟩]⟩ "name" =
      Except.ok "Mr. Ollie" :=
  C4_default_value_frozen (fun s : String => s) ⟨"", [], [], []⟩
    ⟨"", [⟨"name", "d", false, TypeTag.string⟩], [⟨"name", "Mr. Ollie"⟩], []⟩
    ⟨"", [⟨"name", "d", false, TypeTag.string⟩], [⟨"name", "Mr. Ollie"⟩],
      [⟨"name", "Mr. Ollie"⟩]⟩
    TypeTag.string "name" "Mr. Ollie" "d" ["--something", "else"]
    (by decide) (by simp) (by decide) (by decide)

end Commandrs
